import Mathlib

set_option autoImplicit false
set_option maxRecDepth 4000

/- Shallow embedding of the ToobUnlimited sources (src/utils.py,
src/Naming/StationNameGenerator.py, src/Network/Network.py,
src/Network/NetworkLine.py, src/Network/NetworkContainerSuper.py).
Python integers are modelled as Int/Nat, the float arithmetic of the seed
formula as exact rationals, raised exceptions as Except/explicit error values,
and the Mersenne-Twister generator behind random.Random as an abstract
deterministic value stream. -/

/-- Python exception kinds raised by the modelled code. -/
inductive PyErr
  | valueError
  | typeError
  | indexError
  | recursionError
  deriving DecidableEq, Repr

/-- Model of `new_seed` from src/utils.py: raises ValueError when the secondary
seed is 0, otherwise returns `int(math.floor((primary - secondary) / secondary))`,
with the float arithmetic modelled as exact rational arithmetic. -/
def new_seed (primary_seed secondary_seed : Int) : Except PyErr Int :=
  if secondary_seed = 0 then .error .valueError
  else .ok ⌊((primary_seed : ℚ) - (secondary_seed : ℚ)) / (secondary_seed : ℚ)⌋

/-- Decimal digit count of a natural number, as produced by Python `str`. -/
def numDigits (n : Nat) : Nat :=
  if n = 0 then 1 else Nat.log 10 n + 1

/-- Model of `int(str(n) + str(n))` for a nonnegative integer: decimal
self-concatenation. -/
def selfConcat (n : Nat) : Nat :=
  n * 10 ^ numDigits n + n

/-- Outcome of the seed-normalization while-loop of
`StationNameGenerator.__init__` (lines 81-89): a final value, a ValueError
(raised by `int(str(s) + str(s))` on a negative seed, whose decimal string
contains an interior minus sign), or exhaustion of the iteration bound. -/
inductive NormResult
  | ok (value : Int)
  | valueError
  | outOfFuel
  deriving DecidableEq, Repr

/-- Model of the `__init__` seed loop: while the seed is at most 99999999999 it
is replaced by `int(str(seed) + str(seed))`.  The source loop is unbounded;
`fuel` bounds the number of modelled iterations, and a run that does not finish
within `fuel` iterations yields `outOfFuel`. -/
def normalizeLoop : Nat → Int → NormResult
  | 0, _ => .outOfFuel
  | fuel + 1, s =>
    if 99999999999 < s then .ok s
    else if s < 0 then .valueError
    else normalizeLoop fuel (selfConcat s.toNat)

/-- Decimal concatenation of `m` copies of `s` (`repeatDec s 0 = 0`); this is
what "the input self-concatenated an integral number of times" denotes. -/
def repeatDec (s : Nat) : Nat → Nat
  | 0 => 0
  | m + 1 => repeatDec s m * 10 ^ numDigits s + s

/-- Model of Python `str.capitalize` on ASCII strings: first character
uppercased, all remaining characters lowercased. -/
def pyCapitalize (s : String) : String :=
  match s.data with
  | [] => ""
  | c :: rest => String.mk (c.toUpper :: rest.map Char.toLower)

/-- Model of `_construct_station_name` from src/Naming/StationNameGenerator.py
(lines 33-52). -/
def construct_station_name (pfx : Option String) (former : String)
    (latter : Option String) (sfx : Option String) : String :=
  let s1 : String :=
    match pfx with
    | some p => pyCapitalize p ++ " "
    | none => ""
  let s2 := s1 ++ pyCapitalize former
  let s3 :=
    match latter with
    | some l => s2 ++ l
    | none => s2
  match sfx with
  | some x => s3 ++ " " ++ pyCapitalize x
  | none => s3

/-- Deterministic random generator, abstracting `random.Random(seed)`: an
abstract value stream plus the count of values consumed so far.  Each draw
reads the stream at the current position; weighted selection is abstracted by
letting the stream choose the population index directly (every index is
reachable when all weights are positive, as the default weightings are). -/
structure PyRandom where
  stream : Nat → Nat
  pos : Nat

/-- Model of one draw from a population (`Random.choice`, and one element of a
`Random.choices` result): IndexError on an empty population, as in Python. -/
def PyRandom.choice {α : Type} (r : PyRandom) (pop : List α) :
    Except PyErr (α × PyRandom) :=
  match pop with
  | [] => .error .indexError
  | x :: xs =>
    .ok ((x :: xs).getD (r.stream r.pos % (x :: xs).length) x,
      ⟨r.stream, r.pos + 1⟩)

/-- Model of `Random.choices(population, k)`: `k` successive draws. -/
def PyRandom.choicesN {α : Type} : PyRandom → List α → Nat →
    Except PyErr (List α × PyRandom)
  | r, _, 0 => .ok ([], r)
  | r, pop, k + 1 =>
    match PyRandom.choice r pop with
    | .error e => .error e
    | .ok (x, r1) =>
      match PyRandom.choicesN r1 pop k with
      | .error e => .error e
      | .ok (xs, r2) => .ok (x :: xs, r2)

/-- Model of the `StationNameGenerator` object state: the (already normalized)
user seed, the four loaded part tables (each file line contributes
`line.split("\n")[0]`, so each table is a list of strings), and the three
name-shape weighting tuples, modelled as lists of exact rationals.  The
weightings are consumed only through `random.choices`, whose weighted
selection the abstract stream models. -/
structure StationNameGenerator where
  userseed : Int
  prefix_parts : List String
  former_parts : List String
  latter_parts : List String
  suffix_parts : List String
  nameshape_weights_prefixes : List ℚ
  nameshape_weights_latter_suffix : List ℚ
  nameshape_weights_double_letter : List ℚ
  deriving DecidableEq

/-- Default weightings installed by `StationNameGenerator.__init__`
(source lines 91-104). -/
def StationNameGenerator.mkDefault (userseed : Int)
    (prefixParts formerParts latterParts suffixParts : List String) :
    StationNameGenerator :=
  { userseed := userseed
    prefix_parts := prefixParts
    former_parts := formerParts
    latter_parts := latterParts
    suffix_parts := suffixParts
    nameshape_weights_prefixes := [0.8, 0.2]
    nameshape_weights_latter_suffix := [0.8, 0.15, 0.05]
    nameshape_weights_double_letter := [0.5, 0.5] }

/-- Model of `StationNameGenerator.update_weights` (source lines 106-133).
Note that the source's third branch (lines 131-133) assigns the renormalized
double-letter weights to `self.nameshape_weights_latter_suffix`, not to
`self.nameshape_weights_double_letter`; the model reproduces that assignment. -/
def StationNameGenerator.update_weights (g : StationNameGenerator)
    (prefixWeights latterWeights doubleWeights : Option (List ℚ)) :
    StationNameGenerator :=
  let g1 :=
    match prefixWeights with
    | some w => { g with nameshape_weights_prefixes := w.map (fun i => i / w.sum) }
    | none => g
  let g2 :=
    match latterWeights with
    | some w => { g1 with nameshape_weights_latter_suffix := w.map (fun i => i / w.sum) }
    | none => g1
  match doubleWeights with
  | some w => { g2 with nameshape_weights_latter_suffix := w.map (fun i => i / w.sum) }
  | none => g2

/-- Python `s[0]` on a string: IndexError when the string is empty. -/
def pyFirst (s : String) : Except PyErr Char :=
  match s.data with
  | [] => .error .indexError
  | c :: _ => .ok c

/-- Python `s[-1]` on a string: IndexError when the string is empty. -/
def pyLast (s : String) : Except PyErr Char :=
  match s.data.getLast? with
  | none => .error .indexError
  | some c => .ok c

/-- Python `s[1:-1]` on a string (a slice never raises). -/
def pyInnerSlice (s : String) : String :=
  String.mk ((s.data.drop 1).dropLast)

/-- Pointwise zip of four lists; the per-name loop of `generate_names` walks
the three shape-draw lists (via `zip`) and the formers list (via the running
index `former_num`) in lockstep. -/
def zip4 {α β γ δ : Type} : List α → List β → List γ → List δ →
    List (α × β × γ × δ)
  | a :: as, b :: bs, c :: cs, d :: ds => (a, b, c, d) :: zip4 as bs cs ds
  | _, _, _, _ => []

/-- Model of one iteration of the per-name loop of `generate_names` (source
lines 179-215): draw the optional prefix, resolve the latter/suffix shape tag
(the unmatched case raises, line 197-199), draw and possibly collapse the
latter, and draw the optional suffix.  The collapse condition is exactly
`(not k) and (chosen_latter[0] == formers[former_num][-1])` — no fixed
forced-letter set appears anywhere in the source — and the collapse keeps the
former intact while stripping the first and last characters of the latter. -/
def nameStep (g : StationNameGenerator) (r : PyRandom) (i : Bool) (j : String)
    (k : Bool) (former : String) :
    Except PyErr ((Option String × Option String × Option String) × PyRandom) :=
  let pfxStep : Except PyErr (Option String × PyRandom) :=
    if i then
      match PyRandom.choice r g.prefix_parts with
      | .error e => .error e
      | .ok (p, r1) => .ok (some p, r1)
    else .ok (none, r)
  match pfxStep with
  | .error e => .error e
  | .ok (pfxOpt, r1) =>
    let shapeStep : Except PyErr (Bool × Bool) :=
      match j with
      | "just_latter" => .ok (true, false)
      | "just_suffix" => .ok (false, true)
      | "both" => .ok (true, true)
      | _ => .error .valueError
    match shapeStep with
    | .error e => .error e
    | .ok shape =>
      let latStep : Except PyErr (Option String × PyRandom) :=
        if shape.1 then
          match PyRandom.choice r1 g.latter_parts with
          | .error e => .error e
          | .ok (chosen, r2) =>
            if !k then
              match pyFirst chosen with
              | .error e => .error e
              | .ok c0 =>
                match pyLast former with
                | .error e => .error e
                | .ok cl =>
                  if c0 = cl then .ok (some (pyInnerSlice chosen), r2)
                  else .ok (some chosen, r2)
            else .ok (some chosen, r2)
        else .ok (none, r1)
      match latStep with
      | .error e => .error e
      | .ok (latOpt, r2) =>
        let sfxStep : Except PyErr (Option String × PyRandom) :=
          if shape.2 then
            match PyRandom.choice r2 g.suffix_parts with
            | .error e => .error e
            | .ok (x, r3) => .ok (some x, r3)
          else .ok (none, r2)
        match sfxStep with
        | .error e => .error e
        | .ok (sfxOpt, r3) => .ok ((pfxOpt, latOpt, sfxOpt), r3)

/-- Model of the whole per-name loop of `generate_names`: one `nameStep` per
element of the zipped draw lists, threading the random generator. -/
def genLoop (g : StationNameGenerator) :
    PyRandom → List (Bool × String × Bool × String) →
    Except PyErr (List (Option String × Option String × Option String) × PyRandom)
  | r, [] => .ok ([], r)
  | r, (i, j, k, former) :: rest =>
    match nameStep g r i j k former with
    | .error e => .error e
    | .ok (t, r3) =>
      match genLoop g r3 rest with
      | .error e => .error e
      | .ok (rest2, r4) => .ok (t :: rest2, r4)

/-- Model of `StationNameGenerator.generate_names` (source lines 135-224).
`mkStream` abstracts the value stream of `random.Random(newseed)`; identical
seeds give identical streams, which is the determinism of the source. -/
def StationNameGenerator.generate_names (g : StationNameGenerator)
    (mkStream : Int → Nat → Nat) (n : Int) (num_names : Nat) :
    Except PyErr (List String) :=
  match new_seed g.userseed n with
  | .error e => .error e
  | .ok newseed =>
    match PyRandom.choicesN ⟨mkStream newseed, 0⟩ [false, true] num_names with
    | .error e => .error e
    | .ok (usePfx, r1) =>
      match PyRandom.choicesN r1 ["just_latter", "both", "just_suffix"] num_names with
      | .error e => .error e
      | .ok (useLatterSuffix, r2) =>
        match PyRandom.choicesN r2 [true, false] num_names with
        | .error e => .error e
        | .ok (useDoubleLetters, r3) =>
          match PyRandom.choicesN r3 g.former_parts num_names with
          | .error e => .error e
          | .ok (formers, r4) =>
            match genLoop g r4 (zip4 usePfx useLatterSuffix useDoubleLetters formers) with
            | .error e => .error e
            | .ok (drawn, _) =>
              .ok ((drawn.zip formers).map
                (fun t => construct_station_name t.1.1 t.2 t.1.2.1 t.1.2.2))

/-- Model of the `Network` state relevant to station growth: the
`station_names` bookkeeping list and the display names of the station node
objects committed to the graph, in insertion order.  `NetworkStation` (like
`NetworkLine`, which is in src) defines no custom `__eq__`, so distinct
station objects with equal display names are distinct `networkx` nodes; the
node collection is therefore a list of display names, one per committed
object.  The line bookkeeping fields of the source class are omitted as the
modelled operations never touch them. -/
structure Network where
  station_names : List String
  nodes : List String
  deriving DecidableEq

/-- The repeat-detection step of `Network._generate_station_names` (source
lines 77-81): element `i` is true when generated name `i` appears earlier in
the same batch or in the existing station-name list. -/
def batchRepeats (generated : List String) (stationNames : List String)
    (num_names : Nat) : List Bool :=
  let intra := (List.range num_names).map
    (fun i => decide (generated.getD i "" ∈ generated.take i))
  let inter := generated.map (fun x => decide (x ∈ stationNames))
  List.zipWith (fun a b => a || b) intra inter

/-- Model of `Network._generate_station_names` (source lines 60-98), with the
name synthesizer abstracted as the function `gen` from (n, num_names) to the
generated batch (`generate_names` mutates nothing, so it is such a function).
If the batch is shorter than `num_names` the comprehension on line 77 raises
IndexError.  When any repeats exist the source first recurses (line 89, with
`self.station_names` unchanged, since nothing ever appends to it) and then
executes `for i in len(generated_names):` (line 92), which raises TypeError
because an int is not iterable; `fuel` bounds the unbounded recursion,
exhaustion standing for Python's RecursionError. -/
def Network.generate_station_names (gen : Nat → Nat → List String) :
    Nat → List String → Nat → Except PyErr (List String)
  | 0, _, _ => .error .recursionError
  | fuel + 1, stationNames, num_names =>
    if (gen (stationNames.length + 1) num_names).length < num_names then
      .error .indexError
    else if (batchRepeats (gen (stationNames.length + 1) num_names) stationNames
        num_names).any (fun b => b) then
      match Network.generate_station_names gen fuel stationNames
          ((batchRepeats (gen (stationNames.length + 1) num_names) stationNames
            num_names).count true) with
      | .error e => .error e
      | .ok _ => .error .typeError
    else .ok (gen (stationNames.length + 1) num_names)

/-- Model of `Network.generate_disconnected_stations` (source lines 100-104):
generate names, then add one fresh `NetworkStation` node per name.  The source
never appends the committed names to `self.station_names`; the model
faithfully leaves `station_names` unchanged. -/
def Network.generate_disconnected_stations (gen : Nat → Nat → List String)
    (fuel : Nat) (net : Network) (num_stations : Nat) : Except PyErr Network :=
  match Network.generate_station_names gen fuel net.station_names num_stations with
  | .error e => .error e
  | .ok new_names => .ok { net with nodes := net.nodes ++ new_names }

/-- Model of the `NetworkLine` object (src/Network/NetworkLine.py). -/
structure NetworkLine where
  name : String
  colour : Int × Int × Int
  deriving DecidableEq

/-- Model of `NetworkLine.__init__` (source lines 7-12): each RGB component
must lie in [0, 255], otherwise ValueError; on success the name and colour are
stored unchanged. -/
def NetworkLine.init (line_name : String) (line_colour : Int × Int × Int) :
    Except PyErr NetworkLine :=
  if 0 ≤ line_colour.1 ∧ line_colour.1 ≤ 255
      ∧ 0 ≤ line_colour.2.1 ∧ line_colour.2.1 ≤ 255
      ∧ 0 ≤ line_colour.2.2 ∧ line_colour.2.2 ≤ 255 then
    .ok { name := line_name, colour := line_colour }
  else .error .valueError

/-- Modelled from the spec: `growNewLine` (spec section 4.3) is not present
under src (only `generate_disconnected_stations` is implemented); per the
spec it "constructs a new Line (failing if colour is invalid, see section 3),
generates count unique new station names, adds them as nodes".  The Line is
constructed first, so a colour failure raises before any station is created;
an error result carries the network state at raise time. -/
def grow_new_line (gen : Nat → Nat → List String) (fuel : Nat) (net : Network)
    (count : Nat) (line_name : String) (line_colour : Int × Int × Int) :
    Except (PyErr × Network) (Network × NetworkLine) :=
  match NetworkLine.init line_name line_colour with
  | .error e => .error (e, net)
  | .ok line =>
    match Network.generate_station_names gen fuel net.station_names count with
    | .error e => .error (e, net)
    | .ok new_names => .ok ({ net with nodes := net.nodes ++ new_names }, line)

/-- Python object values relevant to the container relation: plain objects
(compared by identity, since neither `NetworkContainerSuper` nor any class in
src defines `__eq__`) and weak references (equal to other weak references with
identical live referents, never equal to a plain object). -/
inductive PyVal
  | obj (oid : Nat)
  | weakref (target : Nat)
  deriving DecidableEq, Repr

/-- Python `==` on the modelled values: identity between plain objects,
referent identity between weak references, false across the two kinds
(`weakref.ref.__eq__` returns NotImplemented for non-weakref arguments, and
the fallback identity comparison is false for distinct objects). -/
def pyEq : PyVal → PyVal → Bool
  | .obj a, .obj b => a == b
  | .weakref a, .weakref b => a == b
  | _, _ => false

/-- Model of `weakref.ref`. -/
def wrRef : PyVal → PyVal
  | .obj a => .weakref a
  | .weakref a => .weakref a

/-- Model of the `NetworkContainerSuper` object state
(src/Network/NetworkContainerSuper.py). -/
structure NetworkContainerSuper where
  name : String
  contents : List PyVal
  containers : List PyVal
  deriving DecidableEq

/-- Model of `NetworkContainerSuper.__init__`. -/
def NetworkContainerSuper.init (name : String) : NetworkContainerSuper :=
  { name := name, contents := [], containers := [] }

/-- Model of `NetworkContainerSuper.add_content` (source lines 17-18): appends
`weakref.ref(new_content)` to `self.contents`. -/
def NetworkContainerSuper.add_content (c : NetworkContainerSuper)
    (new_content : PyVal) : NetworkContainerSuper :=
  { c with contents := c.contents ++ [wrRef new_content] }

/-- Model of `NetworkContainerSuper.__contains__` (source lines 14-15):
Python `item in self.contents`. -/
def NetworkContainerSuper.contains (c : NetworkContainerSuper) (item : PyVal) :
    Bool :=
  c.contents.any (fun x => pyEq item x)

/-- All-zero abstract random stream (one concrete run of the generator). -/
def zeroStream : Int → Nat → Nat := fun _ _ => 0

/-- Concrete generator state whose part tables force a doubled letter:
former "bu", latter "urn" share the letter u, which the module comment of
StationNameGenerator.py places in the always-suppress set. -/
def genBuUrn : StationNameGenerator :=
  StationNameGenerator.mkDefault 111111111111 ["west"] ["bu"] ["urn"] ["field"]

/-- Concrete generator state with singleton part tables, under which every
latter-only name is "Acton". -/
def genActon : StationNameGenerator :=
  StationNameGenerator.mkDefault 111111111111 ["west"] ["ac"] ["ton"] ["field"]

/- Theorems.  Helper lemmas first, then one theorem per checked claim. -/

theorem getD_mem_of_mem {α : Type} (l : List α) (i : Nat) (d : α) (hd : d ∈ l) :
    l.getD i d ∈ l := by
  rcases Nat.lt_or_ge i l.length with h | h
  · rw [List.getD_eq_getElem l d h]
    exact List.getElem_mem h
  · rw [List.getD_eq_default l d h]
    exact hd

/-- Claim C7: `new_seed` fails with ValueError exactly when the secondary
(growth-index) seed is 0, and for every primary seed and nonzero secondary
seed it returns an integer; as a pure function of its arguments it is
deterministic (float rounding is abstracted as exact rational arithmetic). -/
theorem c7_new_seed_error_behaviour (p s : Int) :
    (new_seed p s = .error .valueError ↔ s = 0)
    ∧ (s ≠ 0 → ∃ v : Int, new_seed p s = .ok v) := by
  constructor
  · constructor
    · intro h
      by_contra hs
      simp [new_seed, hs] at h
    · intro h
      simp [new_seed, h]
  · intro hs
    exact ⟨⌊((p : ℚ) - (s : ℚ)) / (s : ℚ)⌋, by simp [new_seed, hs]⟩

theorem c7_witness :
    new_seed 7 0 = .error .valueError ∧ ∃ v : Int, new_seed 100 3 = .ok v :=
  ⟨(c7_new_seed_error_behaviour 7 0).1.mpr rfl,
    (c7_new_seed_error_behaviour 100 3).2 (by decide)⟩

/-- Claim C6 counterexample: the claim says the former is capitalized with
"the rest as stored", but Python `str.capitalize` lowercases the rest, so the
former "aB" assembles to "Ab", not "AB". -/
theorem c6_counterexample :
    construct_station_name none "aB" none none = "Ab"
    ∧ ("Ab" : String) ≠ "AB" := by
  constructor
  · rfl
  · decide

/-- Claim C6 (amended): every assembled name has the shape
[Prefix ]Former[latter][ Suffix], where prefix, former and suffix are
capitalized with the first letter uppercased and the remaining characters
lowercased (Python `str.capitalize`), the latter is appended directly without
added capitalization or space, the suffix is preceded by a single space, and
an absent prefix or suffix contributes nothing; the two concrete examples of
the claim hold as stated. -/
theorem c6_name_assembly :
    (∀ p f l s, construct_station_name (some p) f l s
        = pyCapitalize p ++ " " ++ construct_station_name none f l s)
    ∧ (∀ f l, construct_station_name none f (some l) none
        = construct_station_name none f none none ++ l)
    ∧ (∀ f l s, construct_station_name none f l (some s)
        = construct_station_name none f l none ++ " " ++ pyCapitalize s)
    ∧ (∀ f, construct_station_name none f none none = pyCapitalize f)
    ∧ (∀ c rest, pyCapitalize (String.mk (c :: rest))
        = String.mk (c.toUpper :: rest.map Char.toLower))
    ∧ construct_station_name (some "north") "ac" (some "ton") (some "bridge")
        = "North Acton Bridge"
    ∧ construct_station_name none "ac" (some "ton") none = "Acton" := by
  refine ⟨?_, ?_, ?_, ?_, ?_, rfl, rfl⟩
  · intro p f l s
    cases l <;> cases s <;> simp [construct_station_name, String.append_assoc]
  · intro f l
    simp [construct_station_name]
  · intro f l s
    cases l <;> simp [construct_station_name, String.append_assoc]
  · intro f
    simp [construct_station_name]
  · intro c rest
    rfl

/-- Claim C4: calling `update_weights` with only the double-letter
distribution provided renormalizes it (each weight divided by the sum) but
stores the result into the latter/suffix slot, leaving the double-letter slot
at its old value — the opposite frame behaviour from the claim; calling it
with all three arguments absent changes nothing. -/
theorem c4_update_weights_frame_bug :
    (StationNameGenerator.update_weights genActon none none
        (some [3, 7])).nameshape_weights_double_letter = [0.5, 0.5]
    ∧ (StationNameGenerator.update_weights genActon none none
        (some [3, 7])).nameshape_weights_latter_suffix = [0.3, 0.7]
    ∧ ([0.3, 0.7] : List ℚ) ≠ genActon.nameshape_weights_latter_suffix
    ∧ StationNameGenerator.update_weights genActon none none none = genActon := by
  refine ⟨rfl, ?_, ?_, rfl⟩
  · show ([3, 7] : List ℚ).map (fun i => i / ([3, 7] : List ℚ).sum) = [0.3, 0.7]
    simp only [List.map, List.sum_cons, List.sum_nil]
    norm_num
  · intro h
    have hlen := congrArg List.length h
    simp [genActon, StationNameGenerator.mkDefault] at hlen

/-- Claim C10: the membership test after insertion returns false, not true:
`add_content` stores `weakref.ref(item)` while `__contains__` compares the raw
item against the stored weak references, so adding never makes the raw item a
member; on a fresh container the test after insertion is false. -/
theorem c10_membership_after_insertion_fails (c : NetworkContainerSuper) (i : Nat) :
    NetworkContainerSuper.contains
        (NetworkContainerSuper.add_content c (PyVal.obj i)) (PyVal.obj i)
      = NetworkContainerSuper.contains c (PyVal.obj i)
    ∧ NetworkContainerSuper.contains
        (NetworkContainerSuper.add_content
          (NetworkContainerSuper.init "line") (PyVal.obj i)) (PyVal.obj i)
      = false := by
  constructor
  · simp [NetworkContainerSuper.contains, NetworkContainerSuper.add_content,
      wrRef, pyEq]
  · rfl

/-- Claim C3: forced double-letter suppression is absent from the code.  The
collapse condition (source line 203) is `(not k) and (chosen_latter[0] ==
formers[former_num][-1])`, with no special letter set; so with former "bu",
latter "urn" (shared letter u, a member of the claimed forced set) and drawn
policy allow-repeat, the latter is used unmodified and the generated name is
"Buurn" with a doubled u, not the collapsed "Bur" the claim requires. -/
theorem c3_forced_suppression_missing :
    StationNameGenerator.generate_names genBuUrn zeroStream 1 1 = .ok ["Buurn"]
    ∧ ("Buurn" : String) ≠ "Bur" := by
  exact ⟨rfl, by decide⟩

/-- Claim C9: constructing a `NetworkLine` succeeds exactly when all three
colour components lie in [0, 255]; on success the given name and colour are
stored unchanged; and `grow_new_line` (modelled from the spec, since only
disconnected growth is implemented under src) fails on an invalid colour with
the network state unchanged, so no station is created. -/
theorem c9_line_colour_validation (line_name : String) (c : Int × Int × Int) :
    ((∃ l, NetworkLine.init line_name c = .ok l)
      ↔ (0 ≤ c.1 ∧ c.1 ≤ 255 ∧ 0 ≤ c.2.1 ∧ c.2.1 ≤ 255
          ∧ 0 ≤ c.2.2 ∧ c.2.2 ≤ 255))
    ∧ (∀ l, NetworkLine.init line_name c = .ok l →
        l.name = line_name ∧ l.colour = c)
    ∧ (∀ gen fuel net count, NetworkLine.init line_name c = .error .valueError →
        grow_new_line gen fuel net count line_name c = .error (.valueError, net)) := by
  refine ⟨⟨?_, ?_⟩, ?_, ?_⟩
  · rintro ⟨l, hl⟩
    by_contra hc
    simp [NetworkLine.init, hc] at hl
  · intro hc
    exact ⟨NetworkLine.mk line_name c, by simp [NetworkLine.init, hc]⟩
  · intro l hl
    rw [NetworkLine.init] at hl
    split at hl
    · obtain rfl := (Except.ok.inj hl).symm
      exact ⟨rfl, rfl⟩
    · simp at hl
  · intro gen fuel net count hinit
    simp [grow_new_line, hinit]

theorem c9_witness :
    grow_new_line (fun _ _ => []) 1 ⟨[], []⟩ 3 "Jubilee" (0, 0, 256)
        = .error (.valueError, ⟨[], []⟩)
    ∧ (NetworkLine.mk "Victoria" (0, 50, 255)).name = "Victoria"
    ∧ (NetworkLine.mk "Victoria" (0, 50, 255)).colour = (0, 50, 255) :=
  ⟨(c9_line_colour_validation "Jubilee" (0, 0, 256)).2.2
      (fun _ _ => []) 1 ⟨[], []⟩ 3 (by rfl),
    (c9_line_colour_validation "Victoria" (0, 50, 255)).2.1
      (NetworkLine.mk "Victoria" (0, 50, 255)) (by rfl)⟩

/-- Claim C1: the station-name uniqueness invariant fails across growth
operations.  `generate_disconnected_stations` never records committed names in
`station_names`, so a second call derives the same secondary seed
(`len(station_names) + 1` is still 1) and — the synthesizer being a pure
function of that seed — regenerates the identical batch; the network then
holds two station nodes with the same display name while the bookkeeping list
is still empty. -/
theorem c1_station_name_uniqueness_violated (gen : Nat → Nat → List String)
    (x : String) (h : gen 1 1 = [x]) :
    Network.generate_disconnected_stations gen 1 ⟨[], []⟩ 1 = .ok ⟨[], [x]⟩
    ∧ Network.generate_disconnected_stations gen 1 ⟨[], [x]⟩ 1 = .ok ⟨[], [x, x]⟩
    ∧ ¬ ([x, x] : List String).Nodup
    ∧ (Network.mk [] [x, x]).station_names = [] := by
  refine ⟨?_, ?_, by simp, rfl⟩ <;>
    simp [Network.generate_disconnected_stations, Network.generate_station_names,
      batchRepeats, h, List.range_succ]

theorem c1_witness :
    Network.generate_disconnected_stations (fun _ _ => ["Acton"]) 1 ⟨[], []⟩ 1
        = .ok ⟨[], ["Acton"]⟩
    ∧ Network.generate_disconnected_stations (fun _ _ => ["Acton"]) 1
        ⟨[], ["Acton"]⟩ 1 = .ok ⟨[], ["Acton", "Acton"]⟩
    ∧ ¬ (["Acton", "Acton"] : List String).Nodup
    ∧ (Network.mk [] ["Acton", "Acton"]).station_names = [] :=
  c1_station_name_uniqueness_violated (fun _ _ => ["Acton"]) "Acton" rfl

/-- Claim C2: whenever a generated batch contains repeats,
`_generate_station_names` raises instead of splicing replacement names: after
the recursive call, line 92 executes `for i in len(generated_names):`, which
raises TypeError (an int is not iterable), and any exception of the recursive
call itself propagates; so the result is always an error, never a spliced
batch. -/
theorem c2_retry_splice_raises (gen : Nat → Nat → List String)
    (stationNames : List String) (num_names fuel : Nat) (hfuel : 0 < fuel)
    (hrep : true ∈ batchRepeats (gen (stationNames.length + 1) num_names)
        stationNames num_names) :
    ∃ e, Network.generate_station_names gen fuel stationNames num_names
        = .error e := by
  obtain ⟨f, rfl⟩ : ∃ f, fuel = f + 1 := ⟨fuel - 1, by omega⟩
  rw [Network.generate_station_names]
  by_cases hlen : (gen (stationNames.length + 1) num_names).length < num_names
  · rw [if_pos hlen]
    exact ⟨.indexError, rfl⟩
  · rw [if_neg hlen]
    have hany : (batchRepeats (gen (stationNames.length + 1) num_names)
        stationNames num_names).any (fun b => b) = true := by
      rw [List.any_eq_true]
      exact ⟨true, hrep, rfl⟩
    rw [if_pos hany]
    cases hrec : Network.generate_station_names gen f stationNames
        ((batchRepeats (gen (stationNames.length + 1) num_names) stationNames
          num_names).count true) with
    | error e => exact ⟨e, rfl⟩
    | ok names => exact ⟨.typeError, rfl⟩

theorem c2_witness :
    ∃ e, Network.generate_station_names (fun _ k => List.replicate k "X") 1 [] 2
        = .error e :=
  c2_retry_splice_raises (fun _ k => List.replicate k "X") [] 2 1 (by decide)
    (by decide)

theorem numDigits_pos (n : Nat) : 0 < numDigits n := by
  unfold numDigits
  split <;> omega

theorem numDigits_eq_log (n : Nat) (h : n ≠ 0) :
    numDigits n = Nat.log 10 n + 1 := by
  unfold numDigits
  rw [if_neg h]

theorem lt_pow_numDigits (n : Nat) : n < 10 ^ numDigits n := by
  unfold numDigits
  split
  · next h => subst h; norm_num
  · exact Nat.lt_pow_succ_log_self (by norm_num) n

theorem pow_numDigits_le (n : Nat) (h : 0 < n) : 10 ^ (numDigits n - 1) ≤ n := by
  have hne : n ≠ 0 := by omega
  unfold numDigits
  rw [if_neg hne]
  simpa using Nat.pow_log_le_self 10 hne

theorem numDigits_concat (x y e : Nat) (hx : 0 < x) (hy : y < 10 ^ e) :
    numDigits (x * 10 ^ e + y) = numDigits x + e := by
  have hx10 : x < 10 ^ numDigits x := lt_pow_numDigits x
  have hxl : 10 ^ (numDigits x - 1) ≤ x := pow_numDigits_le x hx
  have hd : 0 < numDigits x := numDigits_pos x
  have hpe : 0 < 10 ^ e := by positivity
  have hv : x * 10 ^ e + y ≠ 0 := by
    have : 0 < x * 10 ^ e := Nat.mul_pos hx hpe
    omega
  have hlog : Nat.log 10 (x * 10 ^ e + y) = numDigits x - 1 + e := by
    apply Nat.log_eq_of_pow_le_of_lt_pow
    · rw [pow_add]
      exact le_trans (Nat.mul_le_mul_right _ hxl) (Nat.le_add_right _ _)
    · have he1 : numDigits x - 1 + e + 1 = numDigits x + e := by omega
      rw [he1, pow_add]
      have h1 : (x + 1) * 10 ^ e = x * 10 ^ e + 10 ^ e := by ring
      have h2 : (x + 1) * 10 ^ e ≤ 10 ^ numDigits x * 10 ^ e :=
        Nat.mul_le_mul_right _ (by omega)
      omega
  rw [numDigits_eq_log _ hv, hlog]
  omega

theorem repeatDec_one (s : Nat) : repeatDec s 1 = s := by
  simp [repeatDec]

theorem repeatDec_pos (s : Nat) (hs : 0 < s) (m : Nat) (hm : 0 < m) :
    0 < repeatDec s m := by
  cases m with
  | zero => omega
  | succ m =>
    have h : repeatDec s (m + 1) = repeatDec s m * 10 ^ numDigits s + s := rfl
    omega

theorem numDigits_repeatDec (s : Nat) (hs : 0 < s) :
    ∀ m, 0 < m → numDigits (repeatDec s m) = m * numDigits s := by
  intro m
  induction m with
  | zero => omega
  | succ m ih =>
    intro _
    rcases Nat.eq_zero_or_pos m with h0 | hm
    · subst h0
      rw [repeatDec_one]
      omega
    · have hrd : 0 < repeatDec s m := repeatDec_pos s hs m hm
      have hstep : repeatDec s (m + 1) = repeatDec s m * 10 ^ numDigits s + s := rfl
      rw [hstep, numDigits_concat _ _ _ hrd (lt_pow_numDigits s), ih hm]
      ring

theorem repeatDec_add (s a : Nat) : ∀ b, repeatDec s (a + b)
    = repeatDec s a * 10 ^ (b * numDigits s) + repeatDec s b := by
  intro b
  induction b with
  | zero => simp [repeatDec]
  | succ b ih =>
    have h1 : a + (b + 1) = (a + b) + 1 := by omega
    have h2 : repeatDec s ((a + b) + 1)
        = repeatDec s (a + b) * 10 ^ numDigits s + s := rfl
    have h3 : repeatDec s (b + 1) = repeatDec s b * 10 ^ numDigits s + s := rfl
    rw [h1, h2, h3, ih]
    ring

theorem repeatDec_mul (s : Nat) (hs : 0 < s) (a : Nat) (ha : 0 < a) :
    ∀ b, repeatDec (repeatDec s a) b = repeatDec s (a * b) := by
  intro b
  induction b with
  | zero => simp [repeatDec]
  | succ b ih =>
    have h2 : repeatDec (repeatDec s a) (b + 1)
        = repeatDec (repeatDec s a) b * 10 ^ numDigits (repeatDec s a)
          + repeatDec s a := rfl
    rw [h2, ih, numDigits_repeatDec s hs a ha]
    have h3 : a * (b + 1) = a * b + a := by ring
    rw [h3, repeatDec_add]

theorem selfConcat_eq (s : Nat) : selfConcat s = repeatDec s 2 := by
  have h : repeatDec s 2 = repeatDec s 1 * 10 ^ numDigits s + s := rfl
  rw [h, repeatDec_one]
  rfl

theorem lt_selfConcat (s : Nat) (hs : 0 < s) : s < selfConcat s := by
  have h1 : 0 < 10 ^ numDigits s := by positivity
  have h2 : s * 1 ≤ s * 10 ^ numDigits s := Nat.mul_le_mul_left s h1
  unfold selfConcat
  omega

theorem normalizeAux : ∀ (k s : Nat), 10 ^ 11 ≤ s + k → 0 < s →
    ∃ fuel m, 0 < m
      ∧ normalizeLoop fuel (s : Int) = .ok ((repeatDec s m : Nat) : Int)
      ∧ 99999999999 < repeatDec s m := by
  intro k
  have hpow : (10 : Nat) ^ 11 = 100000000000 := by norm_num
  induction k with
  | zero =>
    intro s hk hs
    have hbig : 99999999999 < s := by omega
    have hbigI : (99999999999 : Int) < (s : Int) := by exact_mod_cast hbig
    refine ⟨1, 1, by omega, ?_, ?_⟩
    · rw [repeatDec_one]
      simp [normalizeLoop, hbigI]
    · rw [repeatDec_one]
      exact hbig
  | succ k ih =>
    intro s hk hs
    by_cases hbigI : (99999999999 : Int) < (s : Int)
    · have hbig : 99999999999 < s := by exact_mod_cast hbigI
      refine ⟨1, 1, by omega, ?_, ?_⟩
      · rw [repeatDec_one]
        simp [normalizeLoop, hbigI]
      · rw [repeatDec_one]
        exact hbig
    · have hstep : s < selfConcat s := lt_selfConcat s hs
      have hk' : 10 ^ 11 ≤ selfConcat s + k := by omega
      obtain ⟨fuel, m, hm, hloop, hthr⟩ := ih (selfConcat s) hk' (by omega)
      have hr2 : repeatDec (selfConcat s) m = repeatDec s (2 * m) := by
        rw [selfConcat_eq, repeatDec_mul s hs 2 (by omega) m]
      refine ⟨fuel + 1, 2 * m, by omega, ?_, ?_⟩
      · have hnneg : ¬ ((s : Int) < 0) := by simp
        have hunfold : normalizeLoop (fuel + 1) (s : Int)
            = normalizeLoop fuel ((selfConcat ((s : Int)).toNat : Nat) : Int) := by
          simp [normalizeLoop, hbigI, hnneg]
        rw [hunfold]
        have htn : ((s : Int)).toNat = s := Int.toNat_natCast s
        rw [htn, hloop, hr2]
      · rw [← hr2]
        exact hthr

/-- Claim C5 counterexample: the input seed 0 has one decimal digit (fewer
than 12), but the normalization loop never terminates on it:
`int(str(0) + str(0))` is 0 again, so the loop body makes no progress and no
iteration bound ever produces a result. -/
theorem c5_counterexample :
    ¬ ∃ fuel v, normalizeLoop fuel 0 = NormResult.ok v := by
  have hzero : ∀ fuel, normalizeLoop fuel 0 = NormResult.outOfFuel := by
    intro fuel
    induction fuel with
    | zero => rfl
    | succ f ih =>
      have h : selfConcat 0 = 0 := by
        simp [selfConcat, numDigits]
      simp [normalizeLoop, h, ih]
  rintro ⟨fuel, v, h⟩
  rw [hzero fuel] at h
  exact NormResult.noConfusion h

/-- Claim C5 (amended): for every positive input seed, if it has fewer than
12 decimal digits the construction-time normalization loop terminates, and
the resulting normalized seed has at least 12 decimal digits and equals the
input self-concatenated (as a decimal string) an integral number of times;
positive seeds that already have 12 or more digits are left unchanged.  (The
original claim quantified over every seed; it fails at seed 0, which loops
forever, and negative seeds raise ValueError inside `int(str(s) + str(s))`.) -/
theorem c5_seed_normalization (s : Nat) (hs : 0 < s) :
    (∃ fuel m, 0 < m
      ∧ normalizeLoop fuel (s : Int) = .ok ((repeatDec s m : Nat) : Int)
      ∧ 12 ≤ numDigits (repeatDec s m))
    ∧ (99999999999 < (s : Int) → normalizeLoop 1 (s : Int) = .ok (s : Int)) := by
  constructor
  · have hpow : (10 : Nat) ^ 11 = 100000000000 := by norm_num
    obtain ⟨fuel, m, hm, hloop, hthr⟩ := normalizeAux (10 ^ 11) s (by omega) hs
    refine ⟨fuel, m, hm, hloop, ?_⟩
    have hv : repeatDec s m ≠ 0 := by omega
    rw [numDigits_eq_log _ hv]
    have h11 : 11 ≤ Nat.log 10 (repeatDec s m) :=
      (Nat.pow_le_iff_le_log (by norm_num) hv).mp
        (show (10 : Nat) ^ 11 ≤ repeatDec s m by omega)
    omega
  · intro hbig
    simp [normalizeLoop, hbig]

theorem c5_witness :
    (∃ fuel m, 0 < m
      ∧ normalizeLoop fuel ((5 : Nat) : Int) = .ok ((repeatDec 5 m : Nat) : Int)
      ∧ 12 ≤ numDigits (repeatDec 5 m))
    ∧ (99999999999 < ((5 : Nat) : Int) →
        normalizeLoop 1 ((5 : Nat) : Int) = .ok ((5 : Nat) : Int)) :=
  c5_seed_normalization 5 (by decide)

theorem choice_ok {α : Type} (pop : List α) (hp : pop ≠ []) (r : PyRandom) :
    ∃ x r2, PyRandom.choice r pop = .ok (x, r2) ∧ x ∈ pop := by
  cases pop with
  | nil => exact absurd rfl hp
  | cons x xs =>
    exact ⟨(x :: xs).getD (r.stream r.pos % (x :: xs).length) x,
      ⟨r.stream, r.pos + 1⟩, rfl,
      getD_mem_of_mem _ _ _ (List.mem_cons_self x xs)⟩

theorem choicesN_ok {α : Type} (pop : List α) (hp : pop ≠ []) :
    ∀ (k : Nat) (r : PyRandom), ∃ l r2,
      PyRandom.choicesN r pop k = .ok (l, r2) ∧ l.length = k ∧ ∀ x ∈ l, x ∈ pop := by
  intro k
  induction k with
  | zero =>
    intro r
    exact ⟨[], r, rfl, rfl, by simp⟩
  | succ k ih =>
    intro r
    obtain ⟨x, r1, hx, hxm⟩ := choice_ok pop hp r
    obtain ⟨l, r2, hl, hlen, hmem⟩ := ih r1
    refine ⟨x :: l, r2, ?_, by simp [hlen], ?_⟩
    · simp only [PyRandom.choicesN, hx, hl]
    · intro y hy
      rcases List.mem_cons.mp hy with h | h
      · subst h
        exact hxm
      · exact hmem y h

theorem data_eq_nil_iff (s : String) : s.data = [] ↔ s = "" := by
  constructor
  · intro h
    cases s with
    | mk data => rw [show data = ([] : List Char) from h]
  · intro h
    rw [h]

theorem pyFirst_ok (s : String) (h : s ≠ "") : ∃ c, pyFirst s = .ok c := by
  cases hdata : s.data with
  | nil => exact absurd ((data_eq_nil_iff s).mp hdata) h
  | cons c cs => exact ⟨c, by simp [pyFirst, hdata]⟩

theorem pyLast_ok (s : String) (h : s ≠ "") : ∃ c, pyLast s = .ok c := by
  have hne : s.data ≠ [] := fun hh => h ((data_eq_nil_iff s).mp hh)
  cases hg : s.data.getLast? with
  | none => exact absurd (List.getLast?_eq_none_iff.mp hg) hne
  | some c => exact ⟨c, by simp [pyLast, hg]⟩

theorem nameStep_ok (g : StationNameGenerator)
    (hp : g.prefix_parts ≠ []) (hl : g.latter_parts ≠ [])
    (hsuf : g.suffix_parts ≠ []) (hle : ∀ x ∈ g.latter_parts, x ≠ "")
    (r : PyRandom) (i : Bool) (j : String) (k : Bool) (former : String)
    (hj : j = "just_latter" ∨ j = "both" ∨ j = "just_suffix")
    (hf : former ≠ "") :
    ∃ t r2, nameStep g r i j k former = .ok (t, r2) := by
  obtain ⟨cl, hcl⟩ := pyLast_ok former hf
  rcases hj with hj | hj | hj <;> subst hj <;> cases i
  · obtain ⟨chosen, rc, hc, hcm⟩ := choice_ok g.latter_parts hl r
    obtain ⟨c0, hc0⟩ := pyFirst_ok chosen (hle chosen hcm)
    cases k
    · by_cases heq : c0 = cl
      · exact ⟨_, _, by simp [nameStep, hc, hc0, hcl, heq]; exact ⟨rfl, rfl⟩⟩
      · exact ⟨_, _, by simp [nameStep, hc, hc0, hcl, heq]; exact ⟨rfl, rfl⟩⟩
    · exact ⟨_, _, by simp [nameStep, hc]; exact ⟨rfl, rfl⟩⟩
  · obtain ⟨p, rp, hp1, _⟩ := choice_ok g.prefix_parts hp r
    obtain ⟨chosen, rc, hc, hcm⟩ := choice_ok g.latter_parts hl rp
    obtain ⟨c0, hc0⟩ := pyFirst_ok chosen (hle chosen hcm)
    cases k
    · by_cases heq : c0 = cl
      · exact ⟨_, _, by simp [nameStep, hp1, hc, hc0, hcl, heq]; exact ⟨rfl, rfl⟩⟩
      · exact ⟨_, _, by simp [nameStep, hp1, hc, hc0, hcl, heq]; exact ⟨rfl, rfl⟩⟩
    · exact ⟨_, _, by simp [nameStep, hp1, hc]; exact ⟨rfl, rfl⟩⟩
  · obtain ⟨chosen, rc, hc, hcm⟩ := choice_ok g.latter_parts hl r
    obtain ⟨c0, hc0⟩ := pyFirst_ok chosen (hle chosen hcm)
    obtain ⟨x, rx, hx, _⟩ := choice_ok g.suffix_parts hsuf rc
    cases k
    · by_cases heq : c0 = cl
      · exact ⟨_, _, by simp [nameStep, hc, hc0, hcl, heq, hx]; exact ⟨rfl, rfl⟩⟩
      · exact ⟨_, _, by simp [nameStep, hc, hc0, hcl, heq, hx]; exact ⟨rfl, rfl⟩⟩
    · exact ⟨_, _, by simp [nameStep, hc, hx]; exact ⟨rfl, rfl⟩⟩
  · obtain ⟨p, rp, hp1, _⟩ := choice_ok g.prefix_parts hp r
    obtain ⟨chosen, rc, hc, hcm⟩ := choice_ok g.latter_parts hl rp
    obtain ⟨c0, hc0⟩ := pyFirst_ok chosen (hle chosen hcm)
    obtain ⟨x, rx, hx, _⟩ := choice_ok g.suffix_parts hsuf rc
    cases k
    · by_cases heq : c0 = cl
      · exact ⟨_, _, by simp [nameStep, hp1, hc, hc0, hcl, heq, hx]; exact ⟨rfl, rfl⟩⟩
      · exact ⟨_, _, by simp [nameStep, hp1, hc, hc0, hcl, heq, hx]; exact ⟨rfl, rfl⟩⟩
    · exact ⟨_, _, by simp [nameStep, hp1, hc, hx]; exact ⟨rfl, rfl⟩⟩
  · obtain ⟨x, rx, hx, _⟩ := choice_ok g.suffix_parts hsuf r
    exact ⟨_, _, by simp [nameStep, hx]; exact ⟨rfl, rfl⟩⟩
  · obtain ⟨p, rp, hp1, _⟩ := choice_ok g.prefix_parts hp r
    obtain ⟨x, rx, hx, _⟩ := choice_ok g.suffix_parts hsuf rp
    exact ⟨_, _, by simp [nameStep, hp1, hx]; exact ⟨rfl, rfl⟩⟩

theorem genLoop_ok (g : StationNameGenerator)
    (hp : g.prefix_parts ≠ []) (hl : g.latter_parts ≠ [])
    (hsuf : g.suffix_parts ≠ []) (hle : ∀ x ∈ g.latter_parts, x ≠ "") :
    ∀ (input : List (Bool × String × Bool × String)) (r : PyRandom),
      (∀ t ∈ input,
        (t.2.1 = "just_latter" ∨ t.2.1 = "both" ∨ t.2.1 = "just_suffix")
          ∧ t.2.2.2 ≠ "") →
      ∃ out r2, genLoop g r input = .ok (out, r2)
        ∧ out.length = input.length := by
  intro input
  induction input with
  | nil =>
    intro r _
    exact ⟨[], r, rfl, rfl⟩
  | cons hd tl ih =>
    intro r hmem
    obtain ⟨i, j, k, former⟩ := hd
    obtain ⟨hj, hf⟩ := hmem (i, j, k, former) (List.mem_cons_self _ _)
    obtain ⟨t, r3, hstep⟩ := nameStep_ok g hp hl hsuf hle r i j k former hj hf
    obtain ⟨out, r4, hloop, hlen⟩ := ih r3 (fun u hu => hmem u (List.mem_cons_of_mem _ hu))
    refine ⟨t :: out, r4, ?_, by simp [hlen]⟩
    simp only [genLoop, hstep, hloop]

theorem zip4_length {α β γ δ : Type} :
    ∀ (as : List α) (bs : List β) (cs : List γ) (ds : List δ) (n : Nat),
      as.length = n → bs.length = n → cs.length = n → ds.length = n →
      (zip4 as bs cs ds).length = n := by
  intro as
  induction as with
  | nil =>
    intro bs cs ds n h1 _ _ _
    rw [show zip4 ([] : List α) bs cs ds = [] from rfl]
    simpa using h1
  | cons a as ih =>
    intro bs cs ds n h1 h2 h3 h4
    cases bs with
    | nil => simp at h2; simp at h1; omega
    | cons b bs =>
      cases cs with
      | nil => simp at h3; simp at h1; omega
      | cons c cs =>
        cases ds with
        | nil => simp at h4; simp at h1; omega
        | cons d ds =>
          cases n with
          | zero => simp at h1
          | succ n =>
            rw [show zip4 (a :: as) (b :: bs) (c :: cs) (d :: ds)
              = (a, b, c, d) :: zip4 as bs cs ds from rfl]
            simp only [List.length_cons]
            rw [ih bs cs ds n (by simpa using h1) (by simpa using h2)
              (by simpa using h3) (by simpa using h4)]

theorem zip4_mem {α β γ δ : Type} :
    ∀ (as : List α) (bs : List β) (cs : List γ) (ds : List δ)
      (t : α × β × γ × δ), t ∈ zip4 as bs cs ds →
      t.2.1 ∈ bs ∧ t.2.2.2 ∈ ds := by
  intro as
  induction as with
  | nil =>
    intro bs cs ds t ht
    exact absurd (show t ∈ ([] : List (α × β × γ × δ)) from ht)
      (List.not_mem_nil t)
  | cons a as ih =>
    intro bs cs ds t ht
    cases bs with
    | nil =>
      exact absurd (show t ∈ ([] : List (α × β × γ × δ)) from ht)
        (List.not_mem_nil t)
    | cons b bs =>
      cases cs with
      | nil =>
        exact absurd (show t ∈ ([] : List (α × β × γ × δ)) from ht)
          (List.not_mem_nil t)
      | cons c cs =>
        cases ds with
        | nil =>
          exact absurd (show t ∈ ([] : List (α × β × γ × δ)) from ht)
            (List.not_mem_nil t)
        | cons d ds =>
          have ht' : t ∈ (a, b, c, d) :: zip4 as bs cs ds := ht
          rcases List.mem_cons.mp ht' with h | h
          · subst h
            exact ⟨List.mem_cons_self _ _, List.mem_cons_self _ _⟩
          · obtain ⟨h1, h2⟩ := ih bs cs ds t h
            exact ⟨List.mem_cons_of_mem _ h1, List.mem_cons_of_mem _ h2⟩

/-- Claim C8: for every count and nonzero n, `generate_names` returns an
ordered sequence of exactly `count` strings (given a validly loaded
configuration: the four part tables are non-empty, and the former and latter
part strings are themselves non-empty so that the double-letter character
comparison cannot raise); as a pure function of the generator state, the
abstract stream and the arguments it is deterministic; and duplicates in the
output are possible and not filtered (under singleton part tables a batch of
two identical names is returned as is). -/
theorem c8_generate_names_behaviour :
    (∀ (g : StationNameGenerator) (mkStream : Int → Nat → Nat) (n : Int)
        (num_names : Nat),
      n ≠ 0 → g.prefix_parts ≠ [] → g.former_parts ≠ [] → g.latter_parts ≠ []
        → g.suffix_parts ≠ [] → (∀ x ∈ g.former_parts, x ≠ "")
        → (∀ x ∈ g.latter_parts, x ≠ "") →
      ∃ names, StationNameGenerator.generate_names g mkStream n num_names
          = .ok names ∧ names.length = num_names)
    ∧ (∀ g1 g2 mk1 mk2 n1 n2 k1 k2, g1 = g2 → mk1 = mk2 → n1 = n2 → k1 = k2 →
        StationNameGenerator.generate_names g1 mk1 n1 k1
          = StationNameGenerator.generate_names g2 mk2 n2 k2)
    ∧ (∃ names,
        StationNameGenerator.generate_names genActon zeroStream 1 2 = .ok names
          ∧ ¬ names.Nodup) := by
  refine ⟨?_, ?_, ?_⟩
  · intro g mkStream n num_names hn hpne hfne hlne hsne hfe hle
    have hv : new_seed g.userseed n
        = .ok ⌊((g.userseed : ℚ) - (n : ℚ)) / (n : ℚ)⌋ := by
      simp [new_seed, hn]
    obtain ⟨usePfx, r1, h1, hlen1, hm1⟩ :=
      choicesN_ok [false, true] (by simp) num_names
        ⟨mkStream ⌊((g.userseed : ℚ) - (n : ℚ)) / (n : ℚ)⌋, 0⟩
    obtain ⟨shapes, r2, h2, hlen2, hm2⟩ :=
      choicesN_ok ["just_latter", "both", "just_suffix"] (by simp) num_names r1
    obtain ⟨doubles, r3, h3, hlen3, hm3⟩ :=
      choicesN_ok [true, false] (by simp) num_names r2
    obtain ⟨formers, r4, h4, hlen4, hm4⟩ :=
      choicesN_ok g.former_parts hfne num_names r3
    have hcond : ∀ t ∈ zip4 usePfx shapes doubles formers,
        (t.2.1 = "just_latter" ∨ t.2.1 = "both" ∨ t.2.1 = "just_suffix")
          ∧ t.2.2.2 ≠ "" := by
      intro t ht
      obtain ⟨htj, htf⟩ := zip4_mem usePfx shapes doubles formers t ht
      constructor
      · simpa using hm2 _ htj
      · exact hfe _ (hm4 _ htf)
    obtain ⟨drawn, r5, hloop, hlen5⟩ := genLoop_ok g hpne hlne hsne hle
      (zip4 usePfx shapes doubles formers) r4 hcond
    have hzlen : (zip4 usePfx shapes doubles formers).length = num_names :=
      zip4_length usePfx shapes doubles formers num_names hlen1 hlen2 hlen3 hlen4
    refine ⟨(drawn.zip formers).map
      (fun t => construct_station_name t.1.1 t.2 t.1.2.1 t.1.2.2), ?_, ?_⟩
    · simp only [StationNameGenerator.generate_names, hv, h1, h2, h3, h4, hloop]
    · rw [List.length_map, List.length_zip, hlen5, hzlen, hlen4]
      exact Nat.min_self num_names
  · intro g1 g2 mk1 mk2 n1 n2 k1 k2 hg hmk hn hk
    subst hg
    subst hmk
    subst hn
    subst hk
    rfl
  · exact ⟨["Acton", "Acton"], rfl, by simp⟩

theorem c8_witness :
    ∃ names, StationNameGenerator.generate_names genActon zeroStream 1 1
        = .ok names ∧ names.length = 1 :=
  c8_generate_names_behaviour.1 genActon zeroStream 1 1 (by decide) (by decide)
    (by decide) (by decide) (by decide) (by decide) (by decide)
